import Mathlib

/-!
# Verification of the `git-cleanup-merged` branch-processing core

A shallow embedding, in Lean 4, of the core of the `git-cleanup-merged`
command-line tool (source: `src/index.js`, class `GitCleanupTool`), together
with proofs about it.

Modelling conventions:

* JavaScript strings are modelled as `List Char` (`JSStr`), so that the string
  manipulations of the source (`trim`, `split("\n")`, `split(/\s+/)`,
  `slice(1).join(" ")`, concatenation) become executable structural
  recursions that can be reasoned about by induction.  `js s` turns a Lean
  string literal into a `JSStr`.
* `execSync`'s behaviour is abstracted as an `ExecOutcome` input (either its
  stdout, or an error object with `code`/`signal`/`message` fields), since the
  actual process execution is outside the program.
* The cooperative worker pools of `checkBranches` and `deleteBranches`
  (workers pulling indices from a shared counter) are modelled by an explicit
  small-step state machine `poolStep`/`poolRun` driven by an arbitrary
  schedule (which worker acts next).  In the Node.js event loop the mutations
  of the shared collections are atomic — each worker only yields at its
  `await this.execCommand(...)` call — so a worker's visible actions are:
  claim the next index (and start its external command), and later complete
  the claimed index (applying its result to the shared collections).  The
  state records the claim order and the completion order as histories, and
  the shared collections are obtained by replaying the per-index effects in
  completion order, exactly as the source mutates them.
-/

set_option maxHeartbeats 1000000

namespace GitCleanup

/-- JavaScript strings, modelled as lists of characters. -/
abbrev JSStr := List Char

/-- Embed a Lean string literal as a `JSStr`. -/
def js (s : String) : JSStr := s.toList

/-- The whitespace class used to model JavaScript's `\s` (and the characters
trimmed by `String.prototype.trim`) for the characters that can occur in the
tool's inputs. -/
def isWS (c : Char) : Bool := c.isWhitespace

/-- Drop a trailing whitespace run (the right half of JavaScript `trim`). -/
def dropTrailing : JSStr → JSStr
  | [] => []
  | c :: rest =>
    match dropTrailing rest with
    | [] => if isWS c then [] else [c]
    | r => c :: r

/-- Model of JavaScript `String.prototype.trim`. -/
def jsTrim (s : JSStr) : JSStr := dropTrailing (s.dropWhile isWS)

/-- Model of JavaScript `String.prototype.split(sep)` for a one-character
separator (used for `branches.split("\n")`).  Keeps empty fragments, as
JavaScript does. -/
def splitChar (sep : Char) : JSStr → List JSStr
  | [] => [[]]
  | c :: rest =>
    if c = sep then [] :: splitChar sep rest
    else
      match splitChar sep rest with
      | [] => [[c]]
      | t :: ts => (c :: t) :: ts

/-- Accumulator-passing worker for `tokens`; `acc` holds the (reversed)
current token. -/
def tokensAux : JSStr → JSStr → List JSStr
  | [], acc => if acc = [] then [] else [acc.reverse]
  | c :: rest, acc =>
    if isWS c then
      if acc = [] then tokensAux rest [] else acc.reverse :: tokensAux rest []
    else tokensAux rest (c :: acc)

/-- The maximal nonempty runs of non-whitespace characters of `s`.  For a
string with no leading whitespace this is exactly JavaScript
`s.split(/\s+/)`; the source only ever splits lines that were just trimmed. -/
def tokens (s : JSStr) : List JSStr := tokensAux s []

/-- The complement of `isWS`, as a Bool predicate. -/
def notWS (c : Char) : Bool := ! isWS c

/-- Model of JavaScript `Array.prototype.join(" ")` on a list of strings
(used for `parts.slice(1).join(" ")`). -/
def joinSp : List JSStr → JSStr
  | [] => []
  | [t] => t
  | t :: u :: ts => t ++ ' ' :: joinSp (u :: ts)

/-! ## Command Executor (`execCommand`, source lines 37-57) -/

/-- The error object thrown by `execSync`, restricted to the fields the
source inspects: `error.code`, `error.signal` and `error.message`. -/
structure ExecErrorInfo where
  code : Option JSStr
  signal : Option JSStr
  message : JSStr
deriving DecidableEq

/-- Abstraction of one `execSync` run: either it succeeds with some stdout,
or it throws an error object. -/
inductive ExecOutcome where
  | ok (stdout : JSStr)
  | err (e : ExecErrorInfo)
deriving DecidableEq

/-- `options.timeout || 30000` (source line 39): an absent — or `0`, which is
falsy — `timeout` option selects the default 30000 ms. -/
def effectiveTimeout (t : Option Nat) : Nat :=
  match t with
  | none => 30000
  | some v => if v = 0 then 30000 else v

/-- Model of `execCommand(command, options)` (source lines 37-57) as a
function of the underlying `execSync` outcome and the `silent` option.
`Except.error` models the rethrow (`throw error`) of the non-silent failure
path; the `Except.ok` payload is the returned JavaScript value
(`none` = `null`). -/
def execCommand (outcome : ExecOutcome) (silent : Bool) : Except JSStr (Option JSStr) :=
  match outcome with
  | ExecOutcome.ok stdout => Except.ok (some (jsTrim stdout))
  | ExecOutcome.err e =>
    if silent = false then Except.error e.message
    else if e.code = some (js "ETIMEDOUT") ∨ e.signal = some (js "SIGTERM") then
      Except.ok (some (js "__TIMEOUT__"))
    else Except.ok none

/-! ## PR Status Resolver (`getPRStatus`, source lines 228-237) -/

/-- A single external command invocation: command text, `silent` option and
`timeout` option. -/
structure CmdCall where
  cmd : JSStr
  silent : Bool
  timeout : Option Nat
deriving DecidableEq

/-- The external queries `getPRStatus(branch)` issues: exactly one `gh pr
view` call, silent, with a 10000 ms timeout (source lines 230-233). -/
def getPRStatusCalls (branch : JSStr) : List CmdCall :=
  [⟨js "gh pr view \"" ++ branch ++ js "\" --json state --jq .state", true, some 10000⟩]

/-- Model of `getPRStatus(branch)` as a function of the underlying exec
outcome: the `execCommand` result (silent mode), with the surrounding
`try/catch` turning any thrown error into `null` (source lines 229-236). -/
def getPRStatus (outcome : ExecOutcome) : Option JSStr :=
  match execCommand outcome true with
  | Except.ok v => v
  | Except.error _ => none

/-! ## Branch Classifier (`getBranches`, source lines 147-196) -/

/-- The trimmed nonempty lines of the listing text (source lines 166-169:
`branches.split("\n").filter(line => line.trim() !== "").map(line =>
line.trim())`). -/
def branchLines (text : JSStr) : List JSStr :=
  ((splitChar '\n' text).filter fun l => jsTrim l ≠ []).map jsTrim

/-- `parts[0]` where `parts = line.split(/\s+/)` (source lines 172-173). -/
def lineName (line : JSStr) : JSStr := (tokens line).headD []

/-- `parts.slice(1).join(" ")` (source line 174). -/
def lineUpstream (line : JSStr) : JSStr := joinSp (tokens line).tail

/-- The per-line body of the `getBranches` loop (source lines 171-189):
skip protected names, compute `isTracked`, and push the name when the mode
selects it. -/
def keepLine (cur mode : JSStr) (line : JSStr) : Option JSStr :=
  let name := lineName line
  if name = js "main" ∨ name = js "master" ∨ name = cur then none
  else
    let isTracked := lineUpstream line ≠ [] ∧ jsTrim (lineUpstream line) ≠ []
    if (mode = js "tracked" ∧ isTracked) ∨ (mode = js "untracked" ∧ ¬isTracked) ∨
        mode = js "all" then
      some name
    else none

/-- The pure parsing/filtering core of `getBranches` on a successfully
fetched listing `text`. -/
def getBranchesCore (text cur mode : JSStr) : List JSStr :=
  (branchLines text).filterMap (keepLine cur mode)

/-- What `getBranches(mode)` returns together with the error it reports, as
a function of what `execCommand` returned for the listing command
(`none` = `null`) and of whether an exception was thrown inside the `try`
block (caught at source lines 192-195). -/
structure GetBranchesOut where
  result : List JSStr
  errorMsg : Option JSStr
deriving DecidableEq

/-- Model of `getBranches(mode)` (source lines 147-196).  The failure paths
(`null` return, `"__TIMEOUT__"` return, thrown exception) all report via
`spinner.error` and return `[]`; nothing is rethrown, so the model is a
total function. -/
def getBranches (cmdResult : Option JSStr) (threw : Bool) (cur mode : JSStr) :
    GetBranchesOut :=
  if threw then
    { result := [], errorMsg := some (js "Failed to get " ++ mode ++ js " branches") }
  else
    match cmdResult with
    | none =>
      { result := [], errorMsg := some (js "Failed to get " ++ mode ++ js " branches") }
    | some text =>
      if text = js "__TIMEOUT__" then
        { result := [],
          errorMsg := some (js "Failed to get " ++ mode ++ js " branches (timeout)") }
      else { result := getBranchesCore text cur mode, errorMsg := none }

/-! ## The bounded worker pool (`fluidWorker`/`deletionWorker` pattern)

`checkBranches` (source lines 260-367) and `deleteBranches` (source lines
500-588) both spawn `min(limit, N)` workers, each looping: atomically claim
the next index from a shared counter (`getNextBranchIndex` /
`getNextDeleteBranch`), `await` an external command for it, then apply the
result to the shared collections and loop; a worker that finds the counter
exhausted exits.  In the Node.js event loop each of those two phases runs
atomically (the only suspension point is the awaited command), so a run of
the pool is a sequence of atomic worker actions.  `poolStep` performs one
such action of worker `w`; a `schedule` (list of worker indices) determines
the interleaving.  The state keeps the claim history and the completion
history; the shared collections are replays of the per-index effects in
completion order. -/

/-- Status of one worker of the pool: between actions it is `idle`, `busy i`
while awaiting the external command for claimed index `i`, or `finished`
after observing the exhausted counter. -/
inductive WorkerSt where
  | idle : WorkerSt
  | busy : Nat → WorkerSt
  | finished : WorkerSt
deriving DecidableEq

/-- Pool state: the shared `nextIndex` counter, the history of claimed
indices (in claim order), the history of completed indices (in completion
order — the order in which the shared collections were mutated), and the
per-worker statuses. -/
structure PoolSt where
  nextIndex : Nat
  claimed : List Nat
  applied : List Nat
  workers : List WorkerSt
deriving DecidableEq

/-- One atomic action of worker `w` on a pool over `N` work units: an idle
worker claims the next index (or exits when the counter is exhausted,
modelling `if (branchIndex === null) break`); a busy worker completes its
claimed index.  An out-of-range or finished `w` does nothing. -/
def poolStep (N : Nat) (s : PoolSt) (w : Nat) : PoolSt :=
  match s.workers[w]? with
  | none => s
  | some WorkerSt.idle =>
    if s.nextIndex < N then
      { s with nextIndex := s.nextIndex + 1,
               claimed := s.claimed ++ [s.nextIndex],
               workers := s.workers.set w (WorkerSt.busy s.nextIndex) }
    else { s with workers := s.workers.set w WorkerSt.finished }
  | some (WorkerSt.busy i) =>
    { s with applied := s.applied ++ [i],
             workers := s.workers.set w WorkerSt.idle }
  | some WorkerSt.finished => s

/-- Initial pool state with `numWorkers` idle workers. -/
def poolInit (numWorkers : Nat) : PoolSt :=
  { nextIndex := 0, claimed := [], applied := [],
    workers := List.replicate numWorkers WorkerSt.idle }

/-- Run the pool over `N` work units with `numWorkers` workers under the
given interleaving schedule. -/
def poolRun (N numWorkers : Nat) (sched : List Nat) : PoolSt :=
  sched.foldl (poolStep N) (poolInit numWorkers)

/-- `Promise.all(workers)` has resolved: every worker has exited its loop. -/
def allDone (s : PoolSt) : Bool :=
  s.workers.all fun st => st = WorkerSt.finished

/-! ## Concurrent Batch Processor (`checkBranches`, source lines 239-379) -/

/-- What happens when a worker processes one branch: either `getPRStatus`
returns a value (`none` = `null`; this is the only awaited call of
`processBranch`), or an exception is raised inside `processBranch` before it
records its result (caught by `fluidWorker` at source lines 342-358). -/
inductive PBehavior where
  | returns : Option JSStr → PBehavior
  | throws : PBehavior
deriving DecidableEq

/-- One result row: `{ branch, icon, label }` (source line 331). -/
structure BranchResult where
  branch : JSStr
  icon : JSStr
  label : JSStr
deriving DecidableEq

/-- The `switch (prStatus)` of `processBranch` (source lines 305-329):
icon, label, and whether `addBranchToDelete(branch)` was called. -/
def classify (prStatus : Option JSStr) : JSStr × JSStr × Bool :=
  if prStatus = some (js "MERGED") then (js "✅", js "Merged", true)
  else if prStatus = some (js "CLOSED") then (js "🔒", js "Closed", true)
  else if prStatus = some (js "OPEN") then (js "⏳", js "Open", false)
  else if prStatus = some (js "__TIMEOUT__") then (js "❓", js "Timeout", false)
  else (js "❌", js "No PR", false)

/-- The effect of completing work unit `i`: the result row stored in
`resultsMap` and whether `branch` was pushed onto `branchesToDeleteSync`.
A throwing `processBranch` yields the error row of `fluidWorker`'s catch
(source lines 346-350) and pushes nothing. -/
def effectOf (branches : List JSStr) (behavior : Nat → PBehavior) (i : Nat) :
    BranchResult × Bool :=
  let b := branches.getD i []
  match behavior i with
  | PBehavior.throws => (⟨b, js "⚠️", js "Error"⟩, false)
  | PBehavior.returns v =>
    match classify v with
    | (icon, label, del) => (⟨b, icon, label⟩, del)

/-- JavaScript `Map.prototype.set`: replace the value of an existing key in
place, or append a new key. -/
def mapSet {α : Type} (m : List (JSStr × α)) (k : JSStr) (v : α) : List (JSStr × α) :=
  match m with
  | [] => [(k, v)]
  | (k2, v2) :: rest => if k2 = k then (k, v) :: rest else (k2, v2) :: mapSet rest k v

/-- JavaScript `Map.prototype.get` (`none` = `undefined`). -/
def mapGet {α : Type} (m : List (JSStr × α)) (k : JSStr) : Option α :=
  match m with
  | [] => none
  | (k2, v2) :: rest => if k2 = k then some v2 else mapGet rest k

/-- Replay the `resultsMap.set` calls of the completed work units `σ` (in
completion order) on top of map `m0`. -/
def buildMapFrom (branches : List JSStr) (behavior : Nat → PBehavior) (σ : List Nat)
    (m0 : List (JSStr × BranchResult)) : List (JSStr × BranchResult) :=
  σ.foldl (fun m i => mapSet m (branches.getD i []) (effectOf branches behavior i).1) m0

/-- The `resultsMap` after replaying the completed work units in completion
order `σ` (each completion performs `resultsMap.set(branch, row)`, source
lines 331 and 346). -/
def buildMap (branches : List JSStr) (behavior : Nat → PBehavior) (σ : List Nat) :
    List (JSStr × BranchResult) :=
  buildMapFrom branches behavior σ []

/-- The `branchesToDeleteSync` array after replaying the completed work units
in completion order `σ` (pushes at source lines 310 and 315). -/
def buildDel (branches : List JSStr) (behavior : Nat → PBehavior) (σ : List Nat) :
    List JSStr :=
  σ.filterMap fun i =>
    if (effectOf branches behavior i).2 then some (branches.getD i []) else none

/-- Observable outcome of `checkBranches`. -/
structure CheckOutcome where
  warning : Option JSStr
  numWorkers : Nat
  prResults : List (Option BranchResult)
  branchesToDelete : List JSStr
deriving DecidableEq

/-- Model of `checkBranches` (source lines 239-379): empty input
short-circuits with a warning and no workers (lines 245-251); otherwise
`min 5 N` workers (line 362, `CONCURRENCY_LIMIT = 5` at line 260) run to
completion under `sched`, after which `prResults` is rebuilt in input order
from the results map (line 370) and `branchesToDelete` is the synchronized
array (line 373).  `behavior i` is what processing branch `i` does; `sched`
is the event-loop interleaving. -/
def checkBranches (branches : List JSStr) (behavior : Nat → PBehavior)
    (sched : List Nat) : CheckOutcome :=
  if branches.length = 0 then
    { warning := some (js "No tracked branches found to check."),
      numWorkers := 0, prResults := [], branchesToDelete := [] }
  else
    let W := min 5 branches.length
    let s := poolRun branches.length W sched
    { warning := none,
      numWorkers := W,
      prResults := branches.map fun b => mapGet (buildMap branches behavior s.applied) b,
      branchesToDelete := buildDel branches behavior s.applied }

/-! ## Deletion Batch Processor (`deleteBranches`, source lines 448-604) -/

/-- `(toString n).toList`: number-to-string interpolation in messages. -/
def natJs (n : Nat) : JSStr := (toString n).toList

/-- The delete command issued for one branch: `git branch -d "branch"`
(source line 547). -/
def delCmd (b : JSStr) : JSStr := js "git branch -d \"" ++ b ++ js "\""

/-- The effect of completing the deletion of candidate `i`, as a function of
what `execCommand` returned for its delete command (`none` = `null`):
(counted as deleted?, branch pushed onto `failedBranchesSync` if any, the
per-branch log line) — source lines 546-579. -/
def delEffect (cand : List JSStr) (delRes : Nat → Option JSStr) (i : Nat) :
    Bool × Option JSStr × JSStr :=
  let b := cand.getD i []
  match delRes i with
  | some r =>
    if r = js "__TIMEOUT__" then
      (false, some b, js "❌ Failed to delete branch " ++ b ++ js " (timeout)")
    else (true, none, js "✅ Deleted branch " ++ b)
  | none => (false, some b, js "❌ Failed to delete branch " ++ b)

/-- Observable outcome of `deleteBranches`. -/
structure DeleteOutcome where
  warning : Option JSStr
  info : Option JSStr
  numWorkers : Nat
  /-- Delete commands issued, in the order the work units were claimed
  (the command starts executing when its branch is claimed). -/
  commands : List JSStr
  deletedCount : Nat
  failedBranches : List JSStr
  /-- Per-branch success/failure log lines, in completion order. -/
  perBranchLogs : List JSStr
  /-- The final status report (source lines 591-600). -/
  summary : List JSStr
  /-- `this.branchesToDelete` after the call (never reassigned by
  `deleteBranches`). -/
  finalBranchesToDelete : List JSStr
deriving DecidableEq

/-- Model of `deleteBranches` (source lines 448-604): empty candidate list
warns and returns (lines 449-456); dry-run lists candidates and returns
(lines 480-489); a declined confirmation prints `Cancelled.` and issues
nothing (lines 601-603); a confirmed run spawns `min 3 M` workers
(line 584, `DELETE_CONCURRENCY = 3` at line 501) that each issue one delete
command per claimed candidate and tally the three-way result, then prints
the summary.  `delRes i` is the `execCommand` result for candidate `i`;
`sched` is the event-loop interleaving. -/
def deleteBranches (untrackedOnly dryRun : Bool) (cand : List JSStr)
    (confirmed : Bool) (delRes : Nat → Option JSStr) (sched : List Nat) :
    DeleteOutcome :=
  if cand.length = 0 then
    { warning := some (if untrackedOnly then js "No untracked local branches found."
                       else js "No branches with merged or closed PRs found."),
      info := none, numWorkers := 0, commands := [], deletedCount := 0,
      failedBranches := [], perBranchLogs := [], summary := [],
      finalBranchesToDelete := cand }
  else if dryRun then
    { warning := some (js "DRY RUN — branches eligible for deletion:"),
      info := some (if untrackedOnly then
                      js "Run without --dry-run to actually delete untracked branches."
                    else js "Run without --dry-run to actually delete them."),
      numWorkers := 0, commands := [], deletedCount := 0, failedBranches := [],
      perBranchLogs := [], summary := [], finalBranchesToDelete := cand }
  else if confirmed = false then
    { warning := none, info := some (js "Cancelled."), numWorkers := 0,
      commands := [], deletedCount := 0, failedBranches := [],
      perBranchLogs := [], summary := [], finalBranchesToDelete := cand }
  else
    let M := cand.length
    let W := min 3 M
    let s := poolRun M W sched
    let deleted := s.applied.countP fun i => (delEffect cand delRes i).1
    let failed := s.applied.filterMap fun i => (delEffect cand delRes i).2.1
    { warning := none, info := none, numWorkers := W,
      commands := s.claimed.map fun i => delCmd (cand.getD i []),
      deletedCount := deleted,
      failedBranches := failed,
      perBranchLogs := s.applied.map fun i => (delEffect cand delRes i).2.2,
      summary :=
        if failed.length = 0 then
          [js "Successfully deleted " ++ natJs deleted ++ js " branches"]
        else
          (js "Deleted " ++ natJs deleted ++ js " branches, " ++
              natJs failed.length ++ js " failed") ::
            failed.map fun b => js "  Failed: " ++ b,
      finalBranchesToDelete := cand }

/-! ## Spec-side definitions

These follow the specification's words rather than the source, for the
refinement comparison of claim C6 and the deletability predicate of C3. -/

/-- Spec-side (§4.2): "split on a whitespace run into a name ..." — the name
is the longest whitespace-free first segment of the line. -/
def specName (line : JSStr) : JSStr := line.takeWhile notWS

/-- Spec-side (§4.2): "... and an upstream remainder" — everything after the
name. -/
def specRest (line : JSStr) : JSStr := line.dropWhile notWS

/-- Spec-side (§4.2) per-line rule: "drop lines whose name is `main`,
`master`, or equals the current branch; classify as tracked if upstream is
non-empty after trimming, else untracked.  Mode parameter selects which
subset (or both, for `all`) is returned." -/
def specKeep (cur mode : JSStr) (line : JSStr) : Option JSStr :=
  let name := specName line
  if name = js "main" ∨ name = js "master" ∨ name = cur then none
  else
    let tracked := jsTrim (specRest line) ≠ []
    if (mode = js "tracked" ∧ tracked) ∨ (mode = js "untracked" ∧ ¬tracked) ∨
        mode = js "all" then
      some name
    else none

/-- Spec-side rendition of the classifier: "for each non-empty line" of the
listing, apply the spec's per-line rule, preserving input order. -/
def getBranchesSpec (text cur mode : JSStr) : List JSStr :=
  (branchLines text).filterMap (specKeep cur mode)

/-- The statuses the spec calls deletable: the branch's PR status value was
`MERGED` or `CLOSED` (and processing it did not throw). -/
def statusDeletable (b : PBehavior) : Bool :=
  match b with
  | PBehavior.returns v => v = some (js "MERGED") ∨ v = some (js "CLOSED")
  | PBehavior.throws => false

/-- The indices currently claimed by busy workers. -/
def busyList (ws : List WorkerSt) : List Nat :=
  ws.filterMap fun st =>
    match st with
    | WorkerSt.busy i => some i
    | _ => none

/-- The pool invariant: the counter never passes `N`; the claim history is
exactly `0, 1, …, nextIndex-1` in order; completed and in-flight indices
together are a permutation of the claimed ones; a worker only exits once the
counter is exhausted; and the worker count is fixed. -/
def PoolInv (N numW : Nat) (s : PoolSt) : Prop :=
  s.nextIndex ≤ N ∧
  s.claimed = List.range s.nextIndex ∧
  List.Perm (s.applied ++ busyList s.workers) (List.range s.nextIndex) ∧
  (WorkerSt.finished ∈ s.workers → s.nextIndex = N) ∧
  s.workers.length = numW

/-! # Lemmas and theorems -/

theorem busyList_cons_busy (j : Nat) (rest : List WorkerSt) :
    busyList (WorkerSt.busy j :: rest) = j :: busyList rest := rfl

theorem busyList_cons_idle (rest : List WorkerSt) :
    busyList (WorkerSt.idle :: rest) = busyList rest := rfl

theorem busyList_cons_finished (rest : List WorkerSt) :
    busyList (WorkerSt.finished :: rest) = busyList rest := rfl

theorem busyList_set_busy (ws : List WorkerSt) (w n : Nat)
    (h : ws[w]? = some WorkerSt.idle) :
    List.Perm (busyList (ws.set w (WorkerSt.busy n))) (n :: busyList ws) := by
  induction ws generalizing w with
  | nil => simp at h
  | cons st rest ih =>
    cases w with
    | zero =>
      simp only [List.getElem?_cons_zero, Option.some_inj] at h
      subst h
      simp [busyList_cons_busy, busyList_cons_idle]
    | succ w =>
      simp only [List.getElem?_cons_succ] at h
      cases st with
      | idle =>
        simpa [List.set_cons_succ, busyList_cons_idle] using ih w h
      | busy j =>
        simp only [List.set_cons_succ, busyList_cons_busy]
        exact ((ih w h).cons j).trans (List.Perm.swap n j _)
      | finished =>
        simpa [List.set_cons_succ, busyList_cons_finished] using ih w h

theorem busyList_set_finished (ws : List WorkerSt) (w : Nat)
    (h : ws[w]? = some WorkerSt.idle) :
    busyList (ws.set w WorkerSt.finished) = busyList ws := by
  induction ws generalizing w with
  | nil => simp at h
  | cons st rest ih =>
    cases w with
    | zero =>
      simp only [List.getElem?_cons_zero, Option.some_inj] at h
      subst h
      simp [busyList_cons_finished, busyList_cons_idle]
    | succ w =>
      simp only [List.getElem?_cons_succ] at h
      cases st with
      | idle => simpa [List.set_cons_succ, busyList_cons_idle] using ih w h
      | busy j => simpa [List.set_cons_succ, busyList_cons_busy] using ih w h
      | finished => simpa [List.set_cons_succ, busyList_cons_finished] using ih w h

theorem busyList_set_idle (ws : List WorkerSt) (w i : Nat)
    (h : ws[w]? = some (WorkerSt.busy i)) :
    List.Perm (busyList ws) (i :: busyList (ws.set w WorkerSt.idle)) := by
  induction ws generalizing w with
  | nil => simp at h
  | cons st rest ih =>
    cases w with
    | zero =>
      simp only [List.getElem?_cons_zero, Option.some_inj] at h
      subst h
      simp [busyList_cons_busy, busyList_cons_idle]
    | succ w =>
      simp only [List.getElem?_cons_succ] at h
      cases st with
      | idle => simpa [List.set_cons_succ, busyList_cons_idle] using ih w h
      | busy j =>
        simp only [List.set_cons_succ, busyList_cons_busy]
        exact ((ih w h).cons j).trans (List.Perm.swap i j _)
      | finished => simpa [List.set_cons_succ, busyList_cons_finished] using ih w h

theorem poolInv_step (N numW : Nat) (s : PoolSt) (w : Nat) (h : PoolInv N numW s) :
    PoolInv N numW (poolStep N s w) := by
  obtain ⟨h1, h2, h3, h4, h5⟩ := h
  unfold poolStep
  cases hw : s.workers[w]? with
  | none => exact ⟨h1, h2, h3, h4, h5⟩
  | some st =>
    cases st with
    | idle =>
      by_cases hlt : s.nextIndex < N
      · simp only [hlt, if_true]
        refine ⟨hlt, ?_, ?_, ?_, ?_⟩
        · simp [h2, List.range_succ]
        · have hb := busyList_set_busy s.workers w s.nextIndex hw
          have step1 :
              List.Perm (s.applied ++ busyList (s.workers.set w (WorkerSt.busy s.nextIndex)))
                (s.applied ++ (s.nextIndex :: busyList s.workers)) :=
            List.Perm.append_left _ hb
          have step2 :
              List.Perm (s.applied ++ (s.nextIndex :: busyList s.workers))
                (s.nextIndex :: (s.applied ++ busyList s.workers)) :=
            List.perm_middle
          have step3 :
              List.Perm (s.nextIndex :: (s.applied ++ busyList s.workers))
                (s.nextIndex :: List.range s.nextIndex) := h3.cons _
          have step4 :
              List.Perm (s.nextIndex :: List.range s.nextIndex)
                (List.range (s.nextIndex + 1)) := by
            rw [List.range_succ]
            exact (List.perm_append_singleton _ _).symm
          exact ((step1.trans step2).trans step3).trans step4
        · intro hfin
          rcases List.mem_or_eq_of_mem_set hfin with hmem | heq
          · exact absurd hlt (by simp [h4 hmem])
          · cases heq
        · simp [List.length_set, h5]
      · simp only [hlt, if_false]
        have hN : s.nextIndex = N := le_antisymm h1 (le_of_not_lt hlt)
        exact ⟨h1, h2, by rw [busyList_set_finished s.workers w hw]; exact h3,
          fun _ => hN, by simp [List.length_set, h5]⟩
    | busy i =>
      have hb := busyList_set_idle s.workers w i hw
      refine ⟨h1, h2, ?_, ?_, by simp [List.length_set, h5]⟩
      · have heq : s.applied ++ [i] ++ busyList (s.workers.set w WorkerSt.idle) =
            s.applied ++ (i :: busyList (s.workers.set w WorkerSt.idle)) := by
          simp [List.append_assoc]
        rw [heq]
        exact (List.Perm.append_left _ hb).symm.trans h3
      · intro hfin
        rcases List.mem_or_eq_of_mem_set hfin with hmem | heq
        · exact h4 hmem
        · cases heq
    | finished => exact ⟨h1, h2, h3, h4, h5⟩

theorem busyList_replicate (k : Nat) : busyList (List.replicate k WorkerSt.idle) = [] := by
  induction k with
  | zero => rfl
  | succ k ih => simpa [List.replicate_succ, busyList_cons_idle] using ih

theorem poolInv_init (N numW : Nat) : PoolInv N numW (poolInit numW) := by
  refine ⟨Nat.zero_le N, rfl, ?_, ?_, by simp [poolInit]⟩
  · simp [poolInit, busyList_replicate]
  · intro hfin
    simp only [poolInit] at hfin
    have : WorkerSt.finished = WorkerSt.idle := List.eq_of_mem_replicate hfin
    cases this

theorem poolInv_run (N numW : Nat) (sched : List Nat) :
    PoolInv N numW (poolRun N numW sched) := by
  unfold poolRun
  have aux : ∀ (l : List Nat) (s : PoolSt), PoolInv N numW s →
      PoolInv N numW (l.foldl (poolStep N) s) := by
    intro l
    induction l with
    | nil => intro s hs; exact hs
    | cons a l ih =>
      intro s hs
      exact ih _ (poolInv_step N numW s a hs)
  exact aux sched _ (poolInv_init N numW)

theorem pool_complete (N numW : Nat) (sched : List Nat) (hW : 0 < numW)
    (hdone : allDone (poolRun N numW sched) = true) :
    List.Perm (poolRun N numW sched).applied (List.range N) ∧
    (poolRun N numW sched).claimed = List.range N := by
  obtain ⟨h1, h2, h3, h4, h5⟩ := poolInv_run N numW sched
  have hall : ∀ st ∈ (poolRun N numW sched).workers, st = WorkerSt.finished := by
    intro st hst
    have := List.all_eq_true.mp hdone st hst
    exact of_decide_eq_true this
  have hws : (poolRun N numW sched).workers ≠ [] := by
    intro hnil
    rw [hnil] at h5
    simp at h5
    omega
  obtain ⟨st, hst⟩ := List.exists_mem_of_ne_nil _ hws
  have hfin : WorkerSt.finished ∈ (poolRun N numW sched).workers := by
    have := hall st hst
    rwa [this] at hst
  have hN := h4 hfin
  have hbl : busyList (poolRun N numW sched).workers = [] := by
    apply List.filterMap_eq_nil_iff.mpr
    intro st' hst'
    rw [hall st' hst']
  rw [hbl, List.append_nil, hN] at h3
  rw [hN] at h2
  exact ⟨h3, h2⟩

/-! ### JavaScript `Map` lemmas -/

theorem mapGet_mapSet_same {α : Type} (m : List (JSStr × α)) (k : JSStr) (v : α) :
    mapGet (mapSet m k v) k = some v := by
  induction m with
  | nil => simp [mapSet, mapGet]
  | cons p rest ih =>
    obtain ⟨k2, v2⟩ := p
    by_cases hk : k2 = k
    · subst hk
      simp [mapSet, mapGet]
    · simp [mapSet, mapGet, hk, ih]

theorem mapGet_mapSet_ne {α : Type} (m : List (JSStr × α)) (k k2 : JSStr) (v : α)
    (h : k2 ≠ k) : mapGet (mapSet m k v) k2 = mapGet m k2 := by
  induction m with
  | nil =>
    simp only [mapSet, mapGet]
    rw [if_neg (fun hh : k = k2 => h hh.symm)]
  | cons p rest ih =>
    obtain ⟨k3, v3⟩ := p
    simp only [mapSet]
    by_cases hk : k3 = k
    · rw [if_pos hk]
      simp only [mapGet]
      rw [if_neg (fun hh : k = k2 => h hh.symm),
        if_neg (fun hh : k3 = k2 => h (hh.symm.trans hk))]
    · rw [if_neg hk]
      simp only [mapGet]
      by_cases hk2 : k3 = k2
      · rw [if_pos hk2, if_pos hk2]
      · rw [if_neg hk2, if_neg hk2, ih]

theorem mapGet_mapSet_cases {α : Type} (m : List (JSStr × α)) (k k2 : JSStr) (v : α)
    (r : α) (h : mapGet (mapSet m k v) k2 = some r) :
    (k2 = k ∧ r = v) ∨ mapGet m k2 = some r := by
  by_cases hk : k2 = k
  · subst hk
    rw [mapGet_mapSet_same] at h
    exact Or.inl ⟨rfl, (Option.some_inj.mp h).symm⟩
  · rw [mapGet_mapSet_ne m k k2 v hk] at h
    exact Or.inr h

/-! ### `resultsMap` replay lemmas -/

theorem effectOf_branch (branches : List JSStr) (behavior : Nat → PBehavior) (i : Nat) :
    (effectOf branches behavior i).1.branch = branches.getD i [] := by
  cases hbi : behavior i with
  | throws => simp [effectOf, hbi]
  | returns v =>
    rcases hc : classify v with ⟨icon, rest⟩
    obtain ⟨label, del⟩ := rest
    simp [effectOf, hbi, hc]

theorem buildMapFrom_cons (branches : List JSStr) (behavior : Nat → PBehavior)
    (j : Nat) (σ : List Nat) (m0 : List (JSStr × BranchResult)) :
    buildMapFrom branches behavior (j :: σ) m0 =
      buildMapFrom branches behavior σ
        (mapSet m0 (branches.getD j []) (effectOf branches behavior j).1) := rfl

theorem mapGet_buildMapFrom_isSome (branches : List JSStr) (behavior : Nat → PBehavior) :
    ∀ (σ : List Nat) (m0 : List (JSStr × BranchResult)) (b : JSStr),
      ((∃ j ∈ σ, branches.getD j [] = b) ∨ (mapGet m0 b).isSome = true) →
      (mapGet (buildMapFrom branches behavior σ m0) b).isSome = true := by
  intro σ
  induction σ with
  | nil =>
    intro m0 b h
    rcases h with ⟨j, hj, _⟩ | hsome
    · simp at hj
    · exact hsome
  | cons j rest ih =>
    intro m0 b h
    rw [buildMapFrom_cons]
    apply ih
    rcases h with ⟨j', hj', hkey⟩ | hsome
    · rcases List.mem_cons.mp hj' with rfl | hmem
      · right
        rw [← hkey, mapGet_mapSet_same]
        rfl
      · exact Or.inl ⟨j', hmem, hkey⟩
    · right
      by_cases hb : branches.getD j [] = b
      · rw [← hb, mapGet_mapSet_same]
        rfl
      · rw [mapGet_mapSet_ne _ _ _ _ (fun hh => hb hh.symm)]
        exact hsome

theorem mapGet_buildMapFrom_branch (branches : List JSStr) (behavior : Nat → PBehavior) :
    ∀ (σ : List Nat) (m0 : List (JSStr × BranchResult)),
      (∀ k r, mapGet m0 k = some r → r.branch = k) →
      ∀ k r, mapGet (buildMapFrom branches behavior σ m0) k = some r → r.branch = k := by
  intro σ
  induction σ with
  | nil => intro m0 h0 k r h; exact h0 k r h
  | cons j rest ih =>
    intro m0 h0 k r h
    rw [buildMapFrom_cons] at h
    refine ih _ ?_ k r h
    intro k2 r2 h2
    rcases mapGet_mapSet_cases _ _ _ _ _ h2 with ⟨rfl, rfl⟩ | hold
    · exact effectOf_branch branches behavior j
    · exact h0 k2 r2 hold

theorem mapGet_buildMapFrom_unique (branches : List JSStr) (behavior : Nat → PBehavior)
    (i : Nat) :
    ∀ (σ : List Nat) (m0 : List (JSStr × BranchResult)),
      (∀ j ∈ σ, branches.getD j [] = branches.getD i [] →
        effectOf branches behavior j = effectOf branches behavior i) →
      (i ∈ σ ∨ mapGet m0 (branches.getD i []) = some (effectOf branches behavior i).1) →
      mapGet (buildMapFrom branches behavior σ m0) (branches.getD i []) =
        some (effectOf branches behavior i).1 := by
  intro σ
  induction σ with
  | nil =>
    intro m0 _ h2
    rcases h2 with hmem | hget
    · simp at hmem
    · exact hget
  | cons j rest ih =>
    intro m0 h1 h2
    rw [buildMapFrom_cons]
    refine ih _ (fun j' hj' => h1 j' (List.mem_cons_of_mem _ hj')) ?_
    by_cases hkey : branches.getD j [] = branches.getD i []
    · right
      have hres := h1 j (List.mem_cons_self _ _) hkey
      rw [← hkey, mapGet_mapSet_same, hres]
    · rcases h2 with hmem | hget
      · rcases List.mem_cons.mp hmem with rfl | hmem'
        · exact absurd rfl hkey
        · exact Or.inl hmem'
      · right
        rw [mapGet_mapSet_ne _ _ _ _ (fun hh => hkey hh.symm)]
        exact hget

/-! ### Claim C1 -/

/-- C1: For every ordered list of N branch names submitted to
`checkBranches`, the output result sequence `prResults` has length exactly N,
the i-th entry's `branch` field equals the i-th input name, and every
submitted branch yields exactly one result — regardless of the completion
order of concurrent workers (the schedule, provided the pool runs to
completion) and of injected per-branch failures (the behavior). -/
theorem C1_batch_results_in_input_order (branches : List JSStr)
    (behavior : Nat → PBehavior) (sched : List Nat)
    (hdone : allDone (poolRun branches.length (min 5 branches.length) sched) = true) :
    (checkBranches branches behavior sched).prResults.length = branches.length ∧
    ∀ i, i < branches.length →
      ∃ r, (checkBranches branches behavior sched).prResults[i]? = some (some r) ∧
        r.branch = branches.getD i [] := by
  by_cases hN : branches.length = 0
  · constructor
    · simp [checkBranches, hN]
    · intro i hi
      exact absurd (hN ▸ hi) (Nat.not_lt_zero i)
  · have hpos : 0 < branches.length := Nat.pos_of_ne_zero hN
    have hW : 0 < min 5 branches.length := lt_min (by norm_num) hpos
    obtain ⟨hperm, _⟩ :=
      pool_complete branches.length (min 5 branches.length) sched hW hdone
    have hout : (checkBranches branches behavior sched).prResults =
        branches.map (fun b => mapGet (buildMap branches behavior
          (poolRun branches.length (min 5 branches.length) sched).applied) b) := by
      simp [checkBranches, hN]
    constructor
    · rw [hout, List.length_map]
    · intro i hi
      rw [hout, List.getElem?_map]
      obtain ⟨b, hb⟩ : ∃ b, branches[i]? = some b :=
        ⟨branches[i], List.getElem?_eq_getElem hi⟩
      rw [hb]
      have hbd : branches.getD i [] = b := by
        rw [List.getD_eq_getElem?_getD, hb]
        rfl
      have hmem : i ∈ (poolRun branches.length (min 5 branches.length) sched).applied :=
        hperm.mem_iff.mpr (List.mem_range.mpr hi)
      have hsome := mapGet_buildMapFrom_isSome branches behavior
        (poolRun branches.length (min 5 branches.length) sched).applied [] b
        (Or.inl ⟨i, hmem, hbd⟩)
      obtain ⟨r, hr⟩ := Option.isSome_iff_exists.mp hsome
      refine ⟨r, ?_, ?_⟩
      · simpa [buildMap] using hr
      · have hbr := mapGet_buildMapFrom_branch branches behavior
          (poolRun branches.length (min 5 branches.length) sched).applied []
          (by intro k r2 hk; simp [mapGet] at hk) b r hr
        rw [hbr, hbd]

/-- With distinct branch names, the `k`-th result row is exactly the effect
of processing branch `k`, whatever the completion order. -/
theorem checkBranches_prResults_at (branches : List JSStr)
    (behavior : Nat → PBehavior) (sched : List Nat) (hnd : branches.Nodup)
    (hdone : allDone (poolRun branches.length (min 5 branches.length) sched) = true)
    (k : Nat) (hk : k < branches.length) :
    (checkBranches branches behavior sched).prResults[k]? =
      some (some (effectOf branches behavior k).1) := by
  have hN : ¬ branches.length = 0 := by omega
  have hW : 0 < min 5 branches.length := lt_min (by norm_num) (by omega)
  obtain ⟨hperm, _⟩ :=
    pool_complete branches.length (min 5 branches.length) sched hW hdone
  have hout : (checkBranches branches behavior sched).prResults =
      branches.map (fun b => mapGet (buildMap branches behavior
        (poolRun branches.length (min 5 branches.length) sched).applied) b) := by
    simp [checkBranches, hN]
  have hgd : ∀ j (hj : j < branches.length), branches.getD j [] = branches[j] := by
    intro j hj
    rw [List.getD_eq_getElem?_getD, List.getElem?_eq_getElem hj]
    rfl
  have huniq := mapGet_buildMapFrom_unique branches behavior k
    (poolRun branches.length (min 5 branches.length) sched).applied []
    (by
      intro j hj hkey
      have hjN : j < branches.length := List.mem_range.mp (hperm.mem_iff.mp hj)
      have hjk : j = k := by
        rw [hgd j hjN, hgd k hk] at hkey
        exact (List.Nodup.getElem_inj_iff hnd).mp hkey
      rw [hjk])
    (Or.inl (hperm.mem_iff.mpr (List.mem_range.mpr hk)))
  rw [hout, List.getElem?_map, List.getElem?_eq_getElem hk]
  have : mapGet (buildMap branches behavior
      (poolRun branches.length (min 5 branches.length) sched).applied) branches[k] =
      some (effectOf branches behavior k).1 := by
    rw [← hgd k hk]
    exact huniq
  rw [Option.map_some', this]

/-! ### Claim C2 -/

/-- C2: If processing one branch throws an exception inside a worker, that
branch's result becomes the Error record (icon ⚠️, label "Error") for that
branch only, and all other branches whose processing returned a status still
resolve to their normal results; an exception in one branch never causes a
run-wide failure of the batch (the pool still completes and every branch
still has a result, as in C1). -/
theorem C2_worker_exception_isolated (branches : List JSStr)
    (behavior : Nat → PBehavior) (sched : List Nat) (i : Nat)
    (hnd : branches.Nodup)
    (hdone : allDone (poolRun branches.length (min 5 branches.length) sched) = true)
    (hi : i < branches.length) (hthrow : behavior i = PBehavior.throws) :
    (checkBranches branches behavior sched).prResults[i]? =
      some (some ⟨branches.getD i [], js "⚠️", js "Error"⟩) ∧
    ∀ j, j < branches.length → ∀ v, behavior j = PBehavior.returns v →
      (checkBranches branches behavior sched).prResults[j]? =
        some (some ⟨branches.getD j [], (classify v).1, (classify v).2.1⟩) := by
  constructor
  · rw [checkBranches_prResults_at branches behavior sched hnd hdone i hi]
    simp [effectOf, hthrow]
  · intro j hj v hv
    rw [checkBranches_prResults_at branches behavior sched hnd hdone j hj]
    rcases hc : classify v with ⟨icon, rest⟩
    obtain ⟨label, del⟩ := rest
    simp [effectOf, hv, hc]

/-- Witness for C2: branch `b2` throws, `b1` and `b3` return `MERGED` and
`OPEN`; the schedule interleaves the workers. -/
theorem C2_worker_exception_isolated_witness :
    (checkBranches [js "b1", js "b2", js "b3"]
        (fun n => if n = 1 then PBehavior.throws
                  else if n = 0 then PBehavior.returns (some (js "MERGED"))
                  else PBehavior.returns (some (js "OPEN")))
        [0, 1, 2, 2, 0, 1, 1, 0, 2]).prResults[1]? =
      some (some ⟨([js "b1", js "b2", js "b3"] : List JSStr).getD 1 [],
        js "⚠️", js "Error"⟩) ∧
    ∀ j, j < ([js "b1", js "b2", js "b3"] : List JSStr).length →
      ∀ v, (fun n => if n = 1 then PBehavior.throws
                     else if n = 0 then PBehavior.returns (some (js "MERGED"))
                     else PBehavior.returns (some (js "OPEN"))) j =
          PBehavior.returns v →
        (checkBranches [js "b1", js "b2", js "b3"]
            (fun n => if n = 1 then PBehavior.throws
                      else if n = 0 then PBehavior.returns (some (js "MERGED"))
                      else PBehavior.returns (some (js "OPEN")))
            [0, 1, 2, 2, 0, 1, 1, 0, 2]).prResults[j]? =
          some (some ⟨([js "b1", js "b2", js "b3"] : List JSStr).getD j [],
            (classify v).1, (classify v).2.1⟩) :=
  C2_worker_exception_isolated [js "b1", js "b2", js "b3"]
    (fun n => if n = 1 then PBehavior.throws
              else if n = 0 then PBehavior.returns (some (js "MERGED"))
              else PBehavior.returns (some (js "OPEN")))
    [0, 1, 2, 2, 0, 1, 1, 0, 2] 1 (by decide) (by decide) (by decide) (by decide)

/-! ### Claim C3 -/

/-- Whether completing work unit `i` pushed its branch onto the to-delete
collection is exactly whether its PR status value was `MERGED` or `CLOSED`
(and processing did not throw). -/
theorem effectOf_del (branches : List JSStr) (behavior : Nat → PBehavior) (i : Nat) :
    (effectOf branches behavior i).2 = statusDeletable (behavior i) := by
  cases hbi : behavior i with
  | throws => simp [effectOf, hbi, statusDeletable]
  | returns v =>
    simp only [effectOf, hbi, statusDeletable]
    unfold classify
    split_ifs with h1 h2 h3 h4 <;> simp_all

/-- C3: The status-to-decision classification in `checkBranches` is a pure
function of the PR status value: `MERGED ↦ (✅, Merged)` deletable,
`CLOSED ↦ (🔒, Closed)` deletable, `OPEN ↦ (⏳, Open)` kept,
`__TIMEOUT__ ↦ (❓, Timeout)` kept, anything else (including null)
`↦ (❌, No PR)` kept — and after `checkBranches`, `branchesToDelete`
contains exactly the input branches whose status was MERGED or CLOSED. -/
theorem C3_classification_and_delete_set (branches : List JSStr)
    (behavior : Nat → PBehavior) (sched : List Nat)
    (hdone : allDone (poolRun branches.length (min 5 branches.length) sched) = true) :
    classify (some (js "MERGED")) = (js "✅", js "Merged", true) ∧
    classify (some (js "CLOSED")) = (js "🔒", js "Closed", true) ∧
    classify (some (js "OPEN")) = (js "⏳", js "Open", false) ∧
    classify (some (js "__TIMEOUT__")) = (js "❓", js "Timeout", false) ∧
    (∀ v, v ≠ some (js "MERGED") → v ≠ some (js "CLOSED") → v ≠ some (js "OPEN") →
      v ≠ some (js "__TIMEOUT__") → classify v = (js "❌", js "No PR", false)) ∧
    List.Perm (checkBranches branches behavior sched).branchesToDelete
      ((List.range branches.length).filterMap fun i =>
        if statusDeletable (behavior i) then some (branches.getD i []) else none) ∧
    ∀ b, b ∈ (checkBranches branches behavior sched).branchesToDelete ↔
      ∃ i, i < branches.length ∧ branches.getD i [] = b ∧
        statusDeletable (behavior i) = true := by
  have hfun : (fun i => if (effectOf branches behavior i).2 then
        some (branches.getD i []) else none) =
      (fun i => if statusDeletable (behavior i) then
        some (branches.getD i []) else none) := by
    funext i
    rw [effectOf_del]
  have hperm2 : List.Perm (checkBranches branches behavior sched).branchesToDelete
      ((List.range branches.length).filterMap fun i =>
        if statusDeletable (behavior i) then some (branches.getD i []) else none) := by
    by_cases hN : branches.length = 0
    · simp [checkBranches, hN]
    · have hW : 0 < min 5 branches.length :=
        lt_min (by norm_num) (Nat.pos_of_ne_zero hN)
      obtain ⟨hperm, _⟩ :=
        pool_complete branches.length (min 5 branches.length) sched hW hdone
      have hout : (checkBranches branches behavior sched).branchesToDelete =
          buildDel branches behavior
            (poolRun branches.length (min 5 branches.length) sched).applied := by
        simp [checkBranches, hN]
      rw [hout]
      unfold buildDel
      rw [hfun]
      exact hperm.filterMap _
  refine ⟨by decide, by decide, by decide, by decide, ?_, hperm2, ?_⟩
  · intro v h1 h2 h3 h4
    unfold classify
    rw [if_neg h1, if_neg h2, if_neg h3, if_neg h4]
  · intro b
    rw [hperm2.mem_iff, List.mem_filterMap]
    constructor
    · rintro ⟨i, hi, hfi⟩
      refine ⟨i, List.mem_range.mp hi, ?_, ?_⟩
      · by_cases hd : statusDeletable (behavior i) = true
        · rw [if_pos hd] at hfi
          exact Option.some_inj.mp hfi
        · rw [if_neg hd] at hfi
          cases hfi
      · by_cases hd : statusDeletable (behavior i) = true
        · exact hd
        · rw [if_neg hd] at hfi
          cases hfi
    · rintro ⟨i, hi, hb, hd⟩
      exact ⟨i, List.mem_range.mpr hi, by rw [if_pos hd, hb]⟩

/-- Witness for C3: statuses MERGED, OPEN, CLOSED, a null status and a
throwing branch; only the MERGED and CLOSED branches are collected. -/
theorem C3_classification_and_delete_set_witness :
    (classify (some (js "MERGED")) = (js "✅", js "Merged", true) ∧
    classify (some (js "CLOSED")) = (js "🔒", js "Closed", true) ∧
    classify (some (js "OPEN")) = (js "⏳", js "Open", false) ∧
    classify (some (js "__TIMEOUT__")) = (js "❓", js "Timeout", false) ∧
    (∀ v, v ≠ some (js "MERGED") → v ≠ some (js "CLOSED") → v ≠ some (js "OPEN") →
      v ≠ some (js "__TIMEOUT__") → classify v = (js "❌", js "No PR", false)) ∧
    List.Perm (checkBranches [js "m", js "o", js "c", js "n", js "t"]
        (fun n => if n = 0 then PBehavior.returns (some (js "MERGED"))
                  else if n = 1 then PBehavior.returns (some (js "OPEN"))
                  else if n = 2 then PBehavior.returns (some (js "CLOSED"))
                  else if n = 3 then PBehavior.returns none
                  else PBehavior.throws)
        [0, 1, 2, 3, 4, 4, 3, 2, 1, 0, 0, 1, 2, 3, 4]).branchesToDelete
      ((List.range ([js "m", js "o", js "c", js "n", js "t"] : List JSStr).length).filterMap
        fun i => if statusDeletable
            ((fun n => if n = 0 then PBehavior.returns (some (js "MERGED"))
                       else if n = 1 then PBehavior.returns (some (js "OPEN"))
                       else if n = 2 then PBehavior.returns (some (js "CLOSED"))
                       else if n = 3 then PBehavior.returns none
                       else PBehavior.throws) i) then
            some (([js "m", js "o", js "c", js "n", js "t"] : List JSStr).getD i [])
          else none) ∧
    ∀ b, b ∈ (checkBranches [js "m", js "o", js "c", js "n", js "t"]
        (fun n => if n = 0 then PBehavior.returns (some (js "MERGED"))
                  else if n = 1 then PBehavior.returns (some (js "OPEN"))
                  else if n = 2 then PBehavior.returns (some (js "CLOSED"))
                  else if n = 3 then PBehavior.returns none
                  else PBehavior.throws)
        [0, 1, 2, 3, 4, 4, 3, 2, 1, 0, 0, 1, 2, 3, 4]).branchesToDelete ↔
      ∃ i, i < ([js "m", js "o", js "c", js "n", js "t"] : List JSStr).length ∧
        ([js "m", js "o", js "c", js "n", js "t"] : List JSStr).getD i [] = b ∧
        statusDeletable
          ((fun n => if n = 0 then PBehavior.returns (some (js "MERGED"))
                     else if n = 1 then PBehavior.returns (some (js "OPEN"))
                     else if n = 2 then PBehavior.returns (some (js "CLOSED"))
                     else if n = 3 then PBehavior.returns none
                     else PBehavior.throws) i) = true) :=
  C3_classification_and_delete_set [js "m", js "o", js "c", js "n", js "t"]
    (fun n => if n = 0 then PBehavior.returns (some (js "MERGED"))
              else if n = 1 then PBehavior.returns (some (js "OPEN"))
              else if n = 2 then PBehavior.returns (some (js "CLOSED"))
              else if n = 3 then PBehavior.returns none
              else PBehavior.throws)
    [0, 1, 2, 3, 4, 4, 3, 2, 1, 0, 0, 1, 2, 3, 4] (by decide)

/-! ### Claim C9 -/

/-- C9: The number of workers spawned for a batch never exceeds the number
of work units: the status-check batch spawns exactly `min(5, N)` workers for
N branches, the deletion batch spawns exactly `min(3, M)` workers for M
candidates, and for N = 0 the status check short-circuits with the
"nothing to check" warning and spawns no workers. -/
theorem C9_worker_count_bounds :
    (∀ (branches : List JSStr) (behavior : Nat → PBehavior) (sched : List Nat),
      branches ≠ [] →
      (checkBranches branches behavior sched).numWorkers = min 5 branches.length) ∧
    (∀ (behavior : Nat → PBehavior) (sched : List Nat),
      (checkBranches [] behavior sched).warning =
        some (js "No tracked branches found to check.") ∧
      (checkBranches [] behavior sched).numWorkers = 0) ∧
    (∀ (u : Bool) (cand : List JSStr) (delRes : Nat → Option JSStr)
        (sched : List Nat), cand ≠ [] →
      (deleteBranches u false cand true delRes sched).numWorkers =
        min 3 cand.length) := by
  refine ⟨?_, ?_, ?_⟩
  · intro branches behavior sched hne
    have hN : ¬ branches.length = 0 := fun h => hne (List.length_eq_zero.mp h)
    simp [checkBranches, hN]
  · intro behavior sched
    constructor <;> simp [checkBranches]
  · intro u cand delRes sched hne
    have hM : ¬ cand.length = 0 := fun h => hne (List.length_eq_zero.mp h)
    simp [deleteBranches, hM]

/-- Witness for C9: three branches give `min 5 3` check workers, one
candidate gives `min 3 1` deletion worker, and the empty batch warns. -/
theorem C9_worker_count_bounds_witness :
    (checkBranches [js "a", js "b", js "c"]
        (fun _ => PBehavior.returns none) []).numWorkers =
      min 5 ([js "a", js "b", js "c"] : List JSStr).length ∧
    (checkBranches [] (fun _ => PBehavior.returns none) []).warning =
      some (js "No tracked branches found to check.") ∧
    (checkBranches [] (fun _ => PBehavior.returns none) []).numWorkers = 0 ∧
    (deleteBranches false false [js "a"] true (fun _ => none) []).numWorkers =
      min 3 ([js "a"] : List JSStr).length :=
  ⟨C9_worker_count_bounds.1 [js "a", js "b", js "c"]
      (fun _ => PBehavior.returns none) [] (by decide),
   (C9_worker_count_bounds.2.1 (fun _ => PBehavior.returns none) []).1,
   (C9_worker_count_bounds.2.1 (fun _ => PBehavior.returns none) []).2,
   C9_worker_count_bounds.2.2 false [js "a"] (fun _ => none) [] (by decide)⟩

/-! ### Claim C4 -/

/-- Mapping positions of `l` through `getD` recovers mapping `l` itself. -/
theorem map_getD_range {α β : Type} (f : α → β) (d : α) :
    ∀ l : List α, (List.range l.length).map (fun i => f (l.getD i d)) = l.map f := by
  intro l
  apply List.ext_getElem?
  intro n
  rw [List.getElem?_map, List.getElem?_map]
  by_cases hn : n < l.length
  · rw [List.getElem?_range hn, List.getElem?_eq_getElem hn]
    rw [Option.map_some', Option.map_some']
    rw [List.getD_eq_getElem?_getD, List.getElem?_eq_getElem hn]
    rfl
  · rw [List.getElem?_eq_none (by rw [List.length_range]; omega :
        (List.range l.length).length ≤ n),
      List.getElem?_eq_none (by omega : l.length ≤ n)]
    rfl

/-- C4: In `deleteBranches` (not dry-run, non-empty candidate list):
declining the confirmation issues zero delete commands and leaves the
candidate state untouched; confirming issues exactly one `git branch -d`
command per candidate (in order), a delete returning the timeout sentinel or
null is tallied as failed — with distinct log lines for the two cases — any
other return is tallied as deleted, and the final summary reports the
deleted count and lists every failed branch name. -/
theorem C4_delete_batch_outcomes (u : Bool) (cand : List JSStr)
    (delRes : Nat → Option JSStr) (sched : List Nat) (hne : cand ≠ []) :
    ((deleteBranches u false cand false delRes sched).commands = [] ∧
     (deleteBranches u false cand false delRes sched).info = some (js "Cancelled.") ∧
     (deleteBranches u false cand false delRes sched).deletedCount = 0 ∧
     (deleteBranches u false cand false delRes sched).failedBranches = [] ∧
     (deleteBranches u false cand false delRes sched).finalBranchesToDelete = cand) ∧
    (allDone (poolRun cand.length (min 3 cand.length) sched) = true →
      (deleteBranches u false cand true delRes sched).commands = cand.map delCmd ∧
      (deleteBranches u false cand true delRes sched).deletedCount =
        (List.range cand.length).countP (fun i => (delEffect cand delRes i).1) ∧
      List.Perm (deleteBranches u false cand true delRes sched).failedBranches
        ((List.range cand.length).filterMap fun i => (delEffect cand delRes i).2.1) ∧
      (∀ i, i < cand.length → delRes i = some (js "__TIMEOUT__") →
        (delEffect cand delRes i).1 = false ∧
        cand.getD i [] ∈ (deleteBranches u false cand true delRes sched).failedBranches ∧
        (js "❌ Failed to delete branch " ++ cand.getD i [] ++ js " (timeout)") ∈
          (deleteBranches u false cand true delRes sched).perBranchLogs) ∧
      (∀ i, i < cand.length → delRes i = none →
        (delEffect cand delRes i).1 = false ∧
        cand.getD i [] ∈ (deleteBranches u false cand true delRes sched).failedBranches ∧
        (js "❌ Failed to delete branch " ++ cand.getD i []) ∈
          (deleteBranches u false cand true delRes sched).perBranchLogs) ∧
      (∀ i, i < cand.length → ∀ r, delRes i = some r → r ≠ js "__TIMEOUT__" →
        (delEffect cand delRes i).1 = true ∧
        (js "✅ Deleted branch " ++ cand.getD i []) ∈
          (deleteBranches u false cand true delRes sched).perBranchLogs) ∧
      ((deleteBranches u false cand true delRes sched).failedBranches = [] →
        (deleteBranches u false cand true delRes sched).summary =
          [js "Successfully deleted " ++
            natJs (deleteBranches u false cand true delRes sched).deletedCount ++
            js " branches"]) ∧
      ((deleteBranches u false cand true delRes sched).failedBranches ≠ [] →
        (deleteBranches u false cand true delRes sched).summary =
          (js "Deleted " ++
              natJs (deleteBranches u false cand true delRes sched).deletedCount ++
              js " branches, " ++
              natJs (deleteBranches u false cand true delRes sched).failedBranches.length ++
              js " failed") ::
            (deleteBranches u false cand true delRes sched).failedBranches.map
              (fun b => js "  Failed: " ++ b))) := by
  have hM : ¬ cand.length = 0 := fun h => hne (List.length_eq_zero.mp h)
  constructor
  · refine ⟨?_, ?_, ?_, ?_, ?_⟩ <;> simp [deleteBranches, hM]
  · intro hdone
    have hW : 0 < min 3 cand.length := lt_min (by norm_num) (Nat.pos_of_ne_zero hM)
    obtain ⟨happ, hclaim⟩ := pool_complete cand.length (min 3 cand.length) sched hW hdone
    have hcmd : (deleteBranches u false cand true delRes sched).commands =
        (poolRun cand.length (min 3 cand.length) sched).claimed.map
          (fun i => delCmd (cand.getD i [])) := by
      simp [deleteBranches, hM]
    have hdel : (deleteBranches u false cand true delRes sched).deletedCount =
        (poolRun cand.length (min 3 cand.length) sched).applied.countP
          (fun i => (delEffect cand delRes i).1) := by
      simp [deleteBranches, hM]
    have hfail : (deleteBranches u false cand true delRes sched).failedBranches =
        (poolRun cand.length (min 3 cand.length) sched).applied.filterMap
          (fun i => (delEffect cand delRes i).2.1) := by
      simp [deleteBranches, hM]
    have hlogs : (deleteBranches u false cand true delRes sched).perBranchLogs =
        (poolRun cand.length (min 3 cand.length) sched).applied.map
          (fun i => (delEffect cand delRes i).2.2) := by
      simp [deleteBranches, hM]
    have hmemapp : ∀ i, i < cand.length →
        i ∈ (poolRun cand.length (min 3 cand.length) sched).applied := by
      intro i hi
      exact happ.mem_iff.mpr (List.mem_range.mpr hi)
    refine ⟨?_, ?_, ?_, ?_, ?_, ?_, ?_, ?_⟩
    · rw [hcmd, hclaim, map_getD_range]
    · rw [hdel]
      exact happ.countP_eq _
    · rw [hfail]
      exact happ.filterMap _
    · intro i hi hres
      have heff : delEffect cand delRes i =
          (false, some (cand.getD i []),
            js "❌ Failed to delete branch " ++ cand.getD i [] ++ js " (timeout)") := by
        simp [delEffect, hres]
      refine ⟨by rw [heff], ?_, ?_⟩
      · rw [hfail]
        exact List.mem_filterMap.mpr ⟨i, hmemapp i hi, by rw [heff]⟩
      · rw [hlogs]
        exact List.mem_map.mpr ⟨i, hmemapp i hi, by rw [heff]⟩
    · intro i hi hres
      have heff : delEffect cand delRes i =
          (false, some (cand.getD i []),
            js "❌ Failed to delete branch " ++ cand.getD i []) := by
        simp [delEffect, hres]
      refine ⟨by rw [heff], ?_, ?_⟩
      · rw [hfail]
        exact List.mem_filterMap.mpr ⟨i, hmemapp i hi, by rw [heff]⟩
      · rw [hlogs]
        exact List.mem_map.mpr ⟨i, hmemapp i hi, by rw [heff]⟩
    · intro i hi r hres hr
      have heff : delEffect cand delRes i =
          (true, none, js "✅ Deleted branch " ++ cand.getD i []) := by
        simp [delEffect, hres, hr]
      refine ⟨by rw [heff], ?_⟩
      rw [hlogs]
      exact List.mem_map.mpr ⟨i, hmemapp i hi, by rw [heff]⟩
    · intro hempty
      rw [hfail] at hempty
      simp only [deleteBranches, hM, if_neg, if_false]
      simp [hempty]
    · intro hnonempty
      rw [hfail] at hnonempty
      have hlen : ((poolRun cand.length (min 3 cand.length) sched).applied.filterMap
          (fun i => (delEffect cand delRes i).2.1)).length ≠ 0 := by
        intro h
        exact hnonempty (List.length_eq_zero.mp h)
      simp [deleteBranches, hM, hlen]

/-- Witness for C4: three candidates — one success, one timeout, one null
failure — under an interleaved schedule, plus the declined run. -/
theorem C4_delete_batch_outcomes_witness :
    ([js "d1", js "d2", js "d3"] : List JSStr) ≠ [] ∧
    allDone (poolRun ([js "d1", js "d2", js "d3"] : List JSStr).length
      (min 3 ([js "d1", js "d2", js "d3"] : List JSStr).length)
      [0, 1, 2, 1, 0, 2, 0, 1, 2]) = true ∧
    (deleteBranches true false [js "d1", js "d2", js "d3"] false
        (fun i => if i = 0 then some [] else
          if i = 1 then some (js "__TIMEOUT__") else none)
        [0, 1, 2, 1, 0, 2, 0, 1, 2]).commands = [] ∧
    (deleteBranches true false [js "d1", js "d2", js "d3"] true
        (fun i => if i = 0 then some [] else
          if i = 1 then some (js "__TIMEOUT__") else none)
        [0, 1, 2, 1, 0, 2, 0, 1, 2]).commands =
      ([js "d1", js "d2", js "d3"] : List JSStr).map delCmd := by
  have h := C4_delete_batch_outcomes true [js "d1", js "d2", js "d3"]
    (fun i => if i = 0 then some [] else
      if i = 1 then some (js "__TIMEOUT__") else none)
    [0, 1, 2, 1, 0, 2, 0, 1, 2] (by decide)
  exact ⟨by decide, by decide, h.1.1, (h.2 (by decide)).1⟩

/-! ### Claim C5 -/

/-- C5: For every command outcome and options, `execCommand`'s result is
three-way: on success it returns the command's standard output trimmed; on
failure with `silent` set it returns the sentinel `"__TIMEOUT__"` exactly
when the failure is a timeout (`ETIMEDOUT` error code or `SIGTERM` signal)
and null for any other failure; on failure without `silent` it propagates
the failure, carrying the underlying error's message. -/
theorem C5_execCommand_three_way (outcome : ExecOutcome) (silent : Bool) :
    (∀ out, outcome = ExecOutcome.ok out →
      execCommand outcome silent = Except.ok (some (jsTrim out))) ∧
    (∀ e, outcome = ExecOutcome.err e →
      (execCommand outcome true = Except.ok (some (js "__TIMEOUT__")) ↔
        (e.code = some (js "ETIMEDOUT") ∨ e.signal = some (js "SIGTERM"))) ∧
      (¬ (e.code = some (js "ETIMEDOUT") ∨ e.signal = some (js "SIGTERM")) →
        execCommand outcome true = Except.ok none)) ∧
    (∀ e, outcome = ExecOutcome.err e →
      execCommand outcome false = Except.error e.message) := by
  refine ⟨?_, ?_, ?_⟩
  · rintro out rfl
    rfl
  · rintro e rfl
    by_cases hc : e.code = some (js "ETIMEDOUT") ∨ e.signal = some (js "SIGTERM")
    · exact ⟨⟨fun _ => hc, fun _ => by simp [execCommand, hc]⟩,
        fun hnc => absurd hc hnc⟩
    · refine ⟨⟨fun h => ?_, fun hcc => absurd hcc hc⟩,
        fun _ => by simp [execCommand, hc]⟩
      rw [show execCommand (ExecOutcome.err e) true = Except.ok none from by
        simp [execCommand, hc]] at h
      cases h
  · rintro e rfl
    simp [execCommand]

/-- Witness for C5: a success with whitespace-padded output, a timeout
failure, a generic failure (silent), and a non-silent failure. -/
theorem C5_execCommand_three_way_witness :
    execCommand (ExecOutcome.ok (js "  out  ")) true =
      Except.ok (some (jsTrim (js "  out  "))) ∧
    execCommand (ExecOutcome.err ⟨some (js "ETIMEDOUT"), none, js "boom"⟩) true =
      Except.ok (some (js "__TIMEOUT__")) ∧
    execCommand (ExecOutcome.err ⟨none, none, js "boom"⟩) true = Except.ok none ∧
    execCommand (ExecOutcome.err ⟨none, none, js "boom"⟩) false =
      Except.error (ExecErrorInfo.mk none none (js "boom")).message :=
  ⟨(C5_execCommand_three_way (ExecOutcome.ok (js "  out  ")) true).1
      (js "  out  ") rfl,
   ((C5_execCommand_three_way
        (ExecOutcome.err ⟨some (js "ETIMEDOUT"), none, js "boom"⟩) true).2.1
      ⟨some (js "ETIMEDOUT"), none, js "boom"⟩ rfl).1.mpr (Or.inl rfl),
   ((C5_execCommand_three_way (ExecOutcome.err ⟨none, none, js "boom"⟩) true).2.1
      ⟨none, none, js "boom"⟩ rfl).2 (by decide),
   (C5_execCommand_three_way (ExecOutcome.err ⟨none, none, js "boom"⟩) false).2.2
      ⟨none, none, js "boom"⟩ rfl⟩

/-! ### Claim C8 -/

/-- C8 counterexample: an exception during the PR status query (an
`execSync` error that is neither `ETIMEDOUT` nor `SIGTERM`) does NOT degrade
to the ERROR status value: `getPRStatus` returns `null`, which the
classifier renders as "No PR" — not as the "Error" label (which in this
program is produced only by `fluidWorker`'s catch, for exceptions raised
outside `getPRStatus`). -/
theorem C8_exception_is_no_pr_not_error :
    getPRStatus (ExecOutcome.err ⟨none, none, js "boom"⟩) = none ∧
    classify (getPRStatus (ExecOutcome.err ⟨none, none, js "boom"⟩)) =
      (js "❌", js "No PR", false) ∧
    js "No PR" ≠ js "Error" := by decide

/-- C8 (amended): `getPRStatus` issues exactly one external status query per
branch, silent, with a 10-second timeout (shorter than the 30-second
default); a timeout during the query degrades to the `"__TIMEOUT__"` status
value and any other failure — including an exception during the query —
degrades to null (classified "No PR"), rather than propagating; the resolver
itself never throws (it is a total function of the query outcome). -/
theorem C8_pr_status_resolver (branch : JSStr) :
    ((getPRStatusCalls branch).length = 1 ∧
      ∀ c ∈ getPRStatusCalls branch, c.silent = true ∧ c.timeout = some 10000) ∧
    (effectiveTimeout (some 10000) = 10000 ∧ effectiveTimeout none = 30000 ∧
      10000 < effectiveTimeout none) ∧
    (∀ out, getPRStatus (ExecOutcome.ok out) = some (jsTrim out)) ∧
    (∀ e, (e.code = some (js "ETIMEDOUT") ∨ e.signal = some (js "SIGTERM")) →
      getPRStatus (ExecOutcome.err e) = some (js "__TIMEOUT__")) ∧
    (∀ e, ¬ (e.code = some (js "ETIMEDOUT") ∨ e.signal = some (js "SIGTERM")) →
      getPRStatus (ExecOutcome.err e) = none) := by
  refine ⟨⟨rfl, ?_⟩, ⟨rfl, rfl, by decide⟩, ?_, ?_, ?_⟩
  · intro c hc
    rcases List.mem_singleton.mp hc with rfl
    exact ⟨rfl, rfl⟩
  · intro out
    rfl
  · intro e hc
    simp [getPRStatus, execCommand, hc]
  · intro e hc
    simp [getPRStatus, execCommand, hc]

/-- Witness for C8 (amended) at branch `feature1` with a timeout error and a
generic error. -/
theorem C8_pr_status_resolver_witness :
    (getPRStatusCalls (js "feature1")).length = 1 ∧
    getPRStatus (ExecOutcome.err ⟨some (js "ETIMEDOUT"), none, js "t"⟩) =
      some (js "__TIMEOUT__") ∧
    getPRStatus (ExecOutcome.err ⟨none, none, js "boom"⟩) = none :=
  ⟨(C8_pr_status_resolver (js "feature1")).1.1,
   (C8_pr_status_resolver (js "feature1")).2.2.2.1
      ⟨some (js "ETIMEDOUT"), none, js "t"⟩ (Or.inl rfl),
   (C8_pr_status_resolver (js "feature1")).2.2.2.2
      ⟨none, none, js "boom"⟩ (by decide)⟩

/-! ### Claim C7 -/

/-- C7: If the underlying branch-listing command fails (`null`), returns the
timeout sentinel, or throws, `getBranches` reports a mode-specific error
message and returns an empty sequence; the failure is never propagated (the
model is a total function — every failure path yields a result instead of
rethrowing, mirroring the `catch` at source lines 192-195). -/
theorem C7_listing_failure_fail_soft (cur mode : JSStr) :
    getBranches none false cur mode =
      ⟨[], some (js "Failed to get " ++ mode ++ js " branches")⟩ ∧
    getBranches (some (js "__TIMEOUT__")) false cur mode =
      ⟨[], some (js "Failed to get " ++ mode ++ js " branches (timeout)")⟩ ∧
    ∀ cmdResult, getBranches cmdResult true cur mode =
      ⟨[], some (js "Failed to get " ++ mode ++ js " branches")⟩ := by
  refine ⟨rfl, ?_, fun cmdResult => rfl⟩
  simp [getBranches]

/-- Witness for C7 with the `tracked` mode and `main` as current branch. -/
theorem C7_listing_failure_fail_soft_witness :
    getBranches none false (js "main") (js "tracked") =
      ⟨[], some (js "Failed to get " ++ js "tracked" ++ js " branches")⟩ ∧
    getBranches (some (js "__TIMEOUT__")) false (js "main") (js "tracked") =
      ⟨[], some (js "Failed to get " ++ js "tracked" ++ js " branches (timeout)")⟩ ∧
    getBranches (some (js "a b")) true (js "main") (js "tracked") =
      ⟨[], some (js "Failed to get " ++ js "tracked" ++ js " branches")⟩ :=
  ⟨(C7_listing_failure_fail_soft (js "main") (js "tracked")).1,
   (C7_listing_failure_fail_soft (js "main") (js "tracked")).2.1,
   (C7_listing_failure_fail_soft (js "main") (js "tracked")).2.2 (some (js "a b"))⟩

/-! ### Tokenizer and trim lemmas (towards C6 and C10) -/

theorem tokensAux_ne (s : JSStr) : ∀ acc : JSStr, acc ≠ [] →
    tokensAux s acc = (acc.reverse ++ s.takeWhile notWS) :: tokens (s.dropWhile notWS) := by
  induction s with
  | nil =>
    intro acc hacc
    simp [tokensAux, hacc, tokens]
  | cons c r ih =>
    intro acc hacc
    by_cases hws : isWS c = true
    · have h1 : tokensAux (c :: r) acc = acc.reverse :: tokensAux r [] := by
        simp [tokensAux, hws, hacc]
      have h2 : tokens (c :: r) = tokensAux r [] := by
        simp [tokens, tokensAux, hws]
      rw [h1, ← h2]
      have h3 : (c :: r).takeWhile notWS = [] := by
        simp [List.takeWhile_cons, notWS, hws]
      have h4 : (c :: r).dropWhile notWS = c :: r := by
        simp [List.dropWhile_cons, notWS, hws]
      rw [h3, h4, List.append_nil]
    · have hb : isWS c = false := Bool.eq_false_iff.mpr hws
      have h1 : tokensAux (c :: r) acc = tokensAux r (c :: acc) := by
        simp [tokensAux, hb]
      rw [h1, ih (c :: acc) (by simp)]
      have h3 : (c :: r).takeWhile notWS = c :: r.takeWhile notWS := by
        simp [List.takeWhile_cons, notWS, hb]
      have h4 : (c :: r).dropWhile notWS = r.dropWhile notWS := by
        simp [List.dropWhile_cons, notWS, hb]
      rw [h3, h4, List.reverse_cons, List.append_assoc]
      rfl

theorem tokens_cons_ws (c : Char) (s : JSStr) (h : isWS c = true) :
    tokens (c :: s) = tokens s := by
  simp [tokens, tokensAux, h]

theorem tokens_cons_nonws (c : Char) (s : JSStr) (h : isWS c = false) :
    tokens (c :: s) = (c :: s.takeWhile notWS) :: tokens (s.dropWhile notWS) := by
  have h1 : tokens (c :: s) = tokensAux s [c] := by
    simp [tokens, tokensAux, h]
  rw [h1, tokensAux_ne s [c] (by simp)]
  rfl

theorem tokens_eq_nil_iff (s : JSStr) : tokens s = [] ↔ ∀ c ∈ s, isWS c = true := by
  induction s with
  | nil => simp [tokens, tokensAux]
  | cons c r ih =>
    by_cases hws : isWS c = true
    · rw [tokens_cons_ws c r hws]
      simp [hws, ih]
    · have hb : isWS c = false := Bool.eq_false_iff.mpr hws
      rw [tokens_cons_nonws c r hb]
      simp [hws]

theorem tokensAux_mem (s : JSStr) : ∀ acc : JSStr, (∀ c ∈ acc, isWS c = false) →
    ∀ t ∈ tokensAux s acc, t ≠ [] ∧ ∀ c ∈ t, isWS c = false := by
  induction s with
  | nil =>
    intro acc hacc t ht
    by_cases h0 : acc = []
    · simp [tokensAux, h0] at ht
    · simp only [tokensAux, if_neg h0, List.mem_singleton] at ht
      subst ht
      refine ⟨by simpa using h0, ?_⟩
      intro c hc
      exact hacc c (List.mem_reverse.mp hc)
  | cons c r ih =>
    intro acc hacc t ht
    by_cases hws : isWS c = true
    · by_cases h0 : acc = []
      · subst h0
        simp only [tokensAux, hws, if_true, if_pos rfl] at ht
        exact ih [] (by simp) t ht
      · simp only [tokensAux, hws, if_true, if_neg h0, List.mem_cons] at ht
        rcases ht with rfl | ht
        · refine ⟨by simpa using h0, ?_⟩
          intro x hx
          exact hacc x (List.mem_reverse.mp hx)
        · exact ih [] (by simp) t ht
    · have hb : isWS c = false := Bool.eq_false_iff.mpr hws
      have h1 : tokensAux (c :: r) acc = tokensAux r (c :: acc) := by
        simp [tokensAux, hb]
      rw [h1] at ht
      refine ih (c :: acc) ?_ t ht
      intro x hx
      rcases List.mem_cons.mp hx with rfl | hx2
      · exact hb
      · exact hacc x hx2

theorem tokens_mem (s : JSStr) : ∀ t ∈ tokens s, t ≠ [] ∧ ∀ c ∈ t, isWS c = false :=
  tokensAux_mem s [] (by simp)

theorem dropTrailing_eq_nil_iff (l : JSStr) :
    dropTrailing l = [] ↔ ∀ c ∈ l, isWS c = true := by
  induction l with
  | nil => simp [dropTrailing]
  | cons c r ih =>
    simp only [dropTrailing]
    cases hd : dropTrailing r with
    | nil =>
      by_cases hws : isWS c = true
      · simp only [hws, if_true]
        constructor
        · intro _ x hx
          rcases List.mem_cons.mp hx with rfl | hx2
          · exact hws
          · exact (ih.mp hd) x hx2
        · intro _
          trivial
      · simp only [Bool.eq_false_iff.mpr hws, if_false]
        constructor
        · intro h
          cases h
        · intro hall
          exact absurd (hall c (List.mem_cons_self _ _)) hws
    | cons x xs =>
      constructor
      · intro h
        cases h
      · intro hall
        have : dropTrailing r = [] :=
          ih.mpr fun y hy => hall y (List.mem_cons_of_mem _ hy)
        rw [hd] at this
        cases this

theorem jsTrim_eq_nil_iff (s : JSStr) : jsTrim s = [] ↔ ∀ c ∈ s, isWS c = true := by
  unfold jsTrim
  rw [dropTrailing_eq_nil_iff]
  constructor
  · intro hdrop c hc
    rw [← List.takeWhile_append_dropWhile (p := isWS) (l := s)] at hc
    rcases List.mem_append.mp hc with htake | hdr
    · exact List.mem_takeWhile_imp htake
    · exact hdrop c hdr
  · intro hall c hc
    exact hall c (List.Sublist.mem hc (List.dropWhile_sublist _))

theorem no_lead_head (c : Char) (r : JSStr)
    (h : (c :: r).dropWhile isWS = c :: r) : isWS c = false := by
  cases hcb : isWS c with
  | false => rfl
  | true =>
    rw [List.dropWhile_cons, hcb, if_pos rfl] at h
    have hlen : (r.dropWhile isWS).length ≤ r.length :=
      (List.dropWhile_sublist isWS).length_le
    rw [h] at hlen
    simp at hlen

theorem dropWhile_dropWhile (p : Char → Bool) (s : JSStr) :
    ((s.dropWhile p).dropWhile p) = s.dropWhile p := by
  induction s with
  | nil => rfl
  | cons c r ih =>
    by_cases hp : p c = true
    · rw [List.dropWhile_cons, if_pos hp]
      exact ih
    · have hb : p c = false := by
        cases hcb : p c
        · rfl
        · exact absurd hcb hp
      rw [List.dropWhile_cons, if_neg (by simp [hb]), List.dropWhile_cons,
        if_neg (by simp [hb])]

theorem dropTrailing_no_lead (t : JSStr) (h : t.dropWhile isWS = t) :
    (dropTrailing t).dropWhile isWS = dropTrailing t := by
  cases t with
  | nil => rfl
  | cons c r =>
    have hb : isWS c = false := no_lead_head c r h
    simp only [dropTrailing]
    cases hd : dropTrailing r with
    | nil =>
      rw [hb, if_neg (by simp)]
      rw [List.dropWhile_cons, if_neg (by simp [hb])]
    | cons x xs =>
      rw [List.dropWhile_cons, if_neg (by simp [hb])]

theorem jsTrim_no_lead (s : JSStr) : (jsTrim s).dropWhile isWS = jsTrim s := by
  unfold jsTrim
  exact dropTrailing_no_lead _ (dropWhile_dropWhile isWS s)

theorem lineName_eq_specName (ℓ : JSStr) (hno : ℓ.dropWhile isWS = ℓ) :
    lineName ℓ = specName ℓ := by
  cases ℓ with
  | nil => rfl
  | cons c r =>
    have hb : isWS c = false := no_lead_head c r hno
    rw [lineName, tokens_cons_nonws c r hb]
    rw [specName, List.takeWhile_cons, if_pos (by simp [notWS, hb])]
    rfl

theorem joinSp_cons (t : JSStr) (ts : List JSStr) :
    ∃ rest, joinSp (t :: ts) = t ++ rest := by
  cases ts with
  | nil => exact ⟨[], by simp [joinSp]⟩
  | cons u us => exact ⟨' ' :: joinSp (u :: us), rfl⟩

theorem tracked_iff (m : JSStr) :
    (joinSp (tokens m) ≠ [] ∧ jsTrim (joinSp (tokens m)) ≠ []) ↔ jsTrim m ≠ [] := by
  cases ht : tokens m with
  | nil =>
    have hall : ∀ c ∈ m, isWS c = true := (tokens_eq_nil_iff m).mp ht
    have hrhs : jsTrim m = [] := (jsTrim_eq_nil_iff m).mpr hall
    simp [joinSp, hrhs]
  | cons t ts =>
    obtain ⟨htne, hallnw⟩ := tokens_mem m t (ht ▸ List.mem_cons_self t ts)
    obtain ⟨rest, hrest⟩ := joinSp_cons t ts
    obtain ⟨c0, hc0⟩ := List.exists_mem_of_ne_nil t htne
    have hjoin_ne : joinSp (t :: ts) ≠ [] := by
      rw [hrest]
      intro hnil
      rw [List.append_eq_nil] at hnil
      exact htne hnil.1
    have hmem : c0 ∈ joinSp (t :: ts) := by
      rw [hrest]
      exact List.mem_append.mpr (Or.inl hc0)
    have htrim_ne : jsTrim (joinSp (t :: ts)) ≠ [] := by
      intro hnil
      have := (jsTrim_eq_nil_iff _).mp hnil c0 hmem
      rw [hallnw c0 hc0] at this
      cases this
    have hrhs : jsTrim m ≠ [] := by
      intro hnil
      have := (tokens_eq_nil_iff m).mpr ((jsTrim_eq_nil_iff m).mp hnil)
      rw [ht] at this
      cases this
    simp [hjoin_ne, htrim_ne, hrhs]

theorem keepLine_eq_specKeep (cur mode ℓ : JSStr) (hno : ℓ.dropWhile isWS = ℓ) :
    keepLine cur mode ℓ = specKeep cur mode ℓ := by
  have hname : lineName ℓ = specName ℓ := lineName_eq_specName ℓ hno
  have htr : (lineUpstream ℓ ≠ [] ∧ jsTrim (lineUpstream ℓ) ≠ []) ↔
      jsTrim (specRest ℓ) ≠ [] := by
    cases ℓ with
    | nil => decide
    | cons c r =>
      have hb : isWS c = false := no_lead_head c r hno
      have h1 : lineUpstream (c :: r) = joinSp (tokens (r.dropWhile notWS)) := by
        rw [lineUpstream, tokens_cons_nonws c r hb]
        rfl
      have h2 : specRest (c :: r) = r.dropWhile notWS := by
        rw [specRest, List.dropWhile_cons, if_pos (by simp [notWS, hb])]
      rw [h1, h2]
      exact tracked_iff (r.dropWhile notWS)
  simp only [keepLine, specKeep, hname, htr]

/-! ### Claim C6 -/

/-- C6: For every branch-listing text and mode, `getBranches`'s parsing core
splits each non-empty (trimmed) line on a run of whitespace into a name and
an upstream remainder, drops every line whose name is `main`, `master`, or
the current branch, classifies a branch as tracked exactly when the upstream
remainder is non-empty after trimming, and returns the mode-selected subset
in input line order: the source-side parser coincides with the spec-side
rendition (refinement), no output ever contains a protected name, and the
spec's multi-space example parses as required. -/
theorem C6_classifier_refines_spec (text cur mode : JSStr) :
    (∀ b ∈ getBranchesCore text cur mode, b ≠ js "main" ∧ b ≠ js "master" ∧ b ≠ cur) ∧
    getBranchesCore text cur mode = getBranchesSpec text cur mode ∧
    getBranchesCore
        (js "feature1    origin/feature1\nfeature2  upstream/feature2\nmain origin/main")
        (js "main") (js "tracked") = [js "feature1", js "feature2"] := by
  have hlines : ∀ ℓ ∈ branchLines text, ℓ.dropWhile isWS = ℓ := by
    intro ℓ hl
    unfold branchLines at hl
    rcases List.mem_map.mp hl with ⟨ℓ0, _, rfl⟩
    exact jsTrim_no_lead ℓ0
  refine ⟨?_, ?_, by decide⟩
  · intro b hb
    rcases List.mem_filterMap.mp hb with ⟨ℓ, hl, hkeep⟩
    simp only [keepLine] at hkeep
    split_ifs at hkeep with h1 h2
    push_neg at h1
    rw [← Option.some_inj.mp hkeep]
    exact h1
  · unfold getBranchesCore getBranchesSpec
    exact List.filterMap_congr fun ℓ hl => keepLine_eq_specKeep cur mode ℓ (hlines ℓ hl)

/-- Witness for C6 at the spec's multi-space example. -/
theorem C6_classifier_refines_spec_witness :
    (∀ b ∈ getBranchesCore
        (js "feature1    origin/feature1\nfeature2  upstream/feature2\nmain origin/main")
        (js "main") (js "tracked"),
      b ≠ js "main" ∧ b ≠ js "master" ∧ b ≠ js "main") ∧
    getBranchesCore
        (js "feature1    origin/feature1\nfeature2  upstream/feature2\nmain origin/main")
        (js "main") (js "tracked") =
      getBranchesSpec
        (js "feature1    origin/feature1\nfeature2  upstream/feature2\nmain origin/main")
        (js "main") (js "tracked") ∧
    getBranchesCore
        (js "feature1    origin/feature1\nfeature2  upstream/feature2\nmain origin/main")
        (js "main") (js "tracked") = [js "feature1", js "feature2"] :=
  C6_classifier_refines_spec
    (js "feature1    origin/feature1\nfeature2  upstream/feature2\nmain origin/main")
    (js "main") (js "tracked")

/-! ### Claim C10 -/

theorem filterMap_sublist_mono {α β : Type} (f g : α → Option β)
    (h : ∀ x y, f x = some y → g x = some y) :
    ∀ l : List α, List.Sublist (l.filterMap f) (l.filterMap g) := by
  intro l
  induction l with
  | nil => simp
  | cons a t ih =>
    rw [List.filterMap_cons, List.filterMap_cons]
    cases hf : f a with
    | none =>
      cases hg : g a with
      | none => exact ih
      | some y => exact ih.cons y
    | some y =>
      rw [h a y hf]
      exact ih.cons₂ y

theorem count_filterMap_partition {α : Type} (f g h2 : α → Option JSStr)
    (hsplit : ∀ x, (g x = f x ∧ h2 x = none) ∨ (g x = none ∧ h2 x = f x)) :
    ∀ (l : List α) (b : JSStr),
      (l.filterMap g).count b + (l.filterMap h2).count b =
        (l.filterMap f).count b := by
  intro l b
  induction l with
  | nil => rfl
  | cons a t ih =>
    rw [List.filterMap_cons, List.filterMap_cons, List.filterMap_cons]
    rcases hsplit a with ⟨hg, hh⟩ | ⟨hg, hh⟩ <;>
      rcases hf : f a with _ | y <;>
        simp only [hg, hh, hf, List.count_cons] <;> omega

theorem keepLine_tracked_to_all (cur : JSStr) :
    ∀ ℓ y, keepLine cur (js "tracked") ℓ = some y →
      keepLine cur (js "all") ℓ = some y := by
  intro ℓ y h
  simp only [keepLine] at h ⊢
  split_ifs at h with h1 h2
  split_ifs with h3
  · exact h
  · exact absurd (Or.inr (Or.inr (by trivial))) h3

theorem keepLine_untracked_to_all (cur : JSStr) :
    ∀ ℓ y, keepLine cur (js "untracked") ℓ = some y →
      keepLine cur (js "all") ℓ = some y := by
  intro ℓ y h
  simp only [keepLine] at h ⊢
  split_ifs at h with h1 h2
  split_ifs with h3
  · exact h
  · exact absurd (Or.inr (Or.inr (by trivial))) h3

theorem keepLine_partition (cur : JSStr) : ∀ ℓ : JSStr,
    (keepLine cur (js "tracked") ℓ = keepLine cur (js "all") ℓ ∧
      keepLine cur (js "untracked") ℓ = none) ∨
    (keepLine cur (js "tracked") ℓ = none ∧
      keepLine cur (js "untracked") ℓ = keepLine cur (js "all") ℓ) := by
  intro ℓ
  simp only [keepLine]
  by_cases h1 : lineName ℓ = js "main" ∨ lineName ℓ = js "master" ∨ lineName ℓ = cur
  · rw [if_pos h1, if_pos h1, if_pos h1]
    exact Or.inl ⟨rfl, rfl⟩
  · by_cases htr : lineUpstream ℓ ≠ [] ∧ jsTrim (lineUpstream ℓ) ≠ []
    · left
      constructor
      · rw [if_neg h1, if_neg h1, if_pos (Or.inl ⟨by trivial, htr⟩),
          if_pos (Or.inr (Or.inr (by trivial)))]
      · rw [if_neg h1, if_neg ?_]
        rintro (⟨he, _⟩ | ⟨_, hn⟩ | he)
        · exact absurd he (by decide)
        · exact hn htr
        · exact absurd he (by decide)
    · right
      constructor
      · rw [if_neg h1, if_neg ?_]
        rintro (⟨_, ht⟩ | ⟨he, _⟩ | he)
        · exact htr ht
        · exact absurd he (by decide)
        · exact absurd he (by decide)
      · rw [if_neg h1, if_neg h1, if_pos (Or.inr (Or.inl ⟨by trivial, htr⟩)),
          if_pos (Or.inr (Or.inr (by trivial)))]

/-- C10: For every branch-listing text and current-branch value, the
`tracked` and `untracked` outputs of the classifier partition its `all`
output: each is an order-preserving subsequence of the `all` output, and for
every name the per-line multiplicities of the two subsets add up to its
multiplicity in `all` (so each line of `all` lands in exactly one of the
two, and the subsets are disjoint line-by-line). -/
theorem C10_tracked_untracked_partition (text cur : JSStr) :
    List.Sublist (getBranchesCore text cur (js "tracked"))
      (getBranchesCore text cur (js "all")) ∧
    List.Sublist (getBranchesCore text cur (js "untracked"))
      (getBranchesCore text cur (js "all")) ∧
    ∀ b, (getBranchesCore text cur (js "tracked")).count b +
        (getBranchesCore text cur (js "untracked")).count b =
      (getBranchesCore text cur (js "all")).count b := by
  refine ⟨?_, ?_, ?_⟩
  · exact filterMap_sublist_mono _ _ (keepLine_tracked_to_all cur) (branchLines text)
  · exact filterMap_sublist_mono _ _ (keepLine_untracked_to_all cur) (branchLines text)
  · intro b
    exact count_filterMap_partition _ _ _ (keepLine_partition cur) (branchLines text) b

/-- Witness for C10 at a listing with tracked, untracked and protected
lines. -/
theorem C10_tracked_untracked_partition_witness :
    List.Sublist (getBranchesCore (js "f1 origin/f1\nlocal1\nmain origin/main\nf2  o/f2")
        (js "dev") (js "tracked"))
      (getBranchesCore (js "f1 origin/f1\nlocal1\nmain origin/main\nf2  o/f2")
        (js "dev") (js "all")) ∧
    List.Sublist (getBranchesCore (js "f1 origin/f1\nlocal1\nmain origin/main\nf2  o/f2")
        (js "dev") (js "untracked"))
      (getBranchesCore (js "f1 origin/f1\nlocal1\nmain origin/main\nf2  o/f2")
        (js "dev") (js "all")) ∧
    ∀ b, (getBranchesCore (js "f1 origin/f1\nlocal1\nmain origin/main\nf2  o/f2")
          (js "dev") (js "tracked")).count b +
        (getBranchesCore (js "f1 origin/f1\nlocal1\nmain origin/main\nf2  o/f2")
          (js "dev") (js "untracked")).count b =
      (getBranchesCore (js "f1 origin/f1\nlocal1\nmain origin/main\nf2  o/f2")
        (js "dev") (js "all")).count b :=
  C10_tracked_untracked_partition
    (js "f1 origin/f1\nlocal1\nmain origin/main\nf2  o/f2") (js "dev")

/-- Witness for C1 at a concrete input: three branches, a throwing middle
branch, and a schedule whose completion order is out of input order. -/
theorem C1_batch_results_in_input_order_witness :
    (checkBranches [js "b1", js "b2", js "b3"]
        (fun n => if n = 1 then PBehavior.throws
                  else PBehavior.returns (some (js "MERGED")))
        [0, 1, 2, 2, 1, 0, 0, 1, 2]).prResults.length =
      ([js "b1", js "b2", js "b3"] : List JSStr).length ∧
    ∀ i, i < ([js "b1", js "b2", js "b3"] : List JSStr).length →
      ∃ r, (checkBranches [js "b1", js "b2", js "b3"]
          (fun n => if n = 1 then PBehavior.throws
                    else PBehavior.returns (some (js "MERGED")))
          [0, 1, 2, 2, 1, 0, 0, 1, 2]).prResults[i]? = some (some r) ∧
        r.branch = ([js "b1", js "b2", js "b3"] : List JSStr).getD i [] :=
  C1_batch_results_in_input_order [js "b1", js "b2", js "b3"]
    (fun n => if n = 1 then PBehavior.throws
              else PBehavior.returns (some (js "MERGED")))
    [0, 1, 2, 2, 1, 0, 0, 1, 2] (by decide)

end GitCleanup
